import Mathlib

/-!
Shallow embedding of `app_futebol.py` (a small Flask + SQLAlchemy football
statistics app) and proofs about its scoring, upsert, ranking, match
resolution and form/date parsing logic.

Conventions of the embedding:
* SQLAlchemy tables become Lean structures; the rows of a table are a
  `List` kept in insertion (primary-key) order, since `first()` returns the
  first matching row in that order and relationship backrefs enumerate rows
  in that order.
* Nullable integer columns are `Option Int`; Python's `x or 0` on such a
  column becomes `Option.getD 0` (both `None` and `0` are falsy, and both map
  to `0`).
* Python exceptions become `Option`/failure results (`none` = the request
  raises).
-/

/-- Characters stripped by Python's `int(str)` around the literal
(ASCII whitespace as recognised by `str.strip()`). -/
def isPySpace (c : Char) : Bool :=
  c = ' ' || c = '\t' || c = '\n' || c = '\x0d' || c = '\x0b' || c = '\x0c'

/-- Digit accumulator for Python integer literals: after the first digit,
single underscores are allowed between digits. -/
def pyDigitsGo (acc : Nat) : List Char → Option Nat
  | [] => some acc
  | '_' :: c :: cs =>
      if c.isDigit then pyDigitsGo (acc * 10 + (c.toNat - 48)) cs else none
  | '_' :: [] => none
  | c :: cs =>
      if c.isDigit then pyDigitsGo (acc * 10 + (c.toNat - 48)) cs else none

/-- A nonempty digit sequence (with Python's underscore grouping); the first
character must be a digit. -/
def pyDigits : List Char → Option Nat
  | [] => none
  | c :: cs => if c.isDigit then pyDigitsGo (c.toNat - 48) cs else none

/-- Python's `int` on a character sequence: strip whitespace, optional
single sign, then a nonempty digit sequence. `none` models `ValueError`. -/
def pyIntChars? (s : List Char) : Option Int :=
  let cs := ((s.dropWhile isPySpace).reverse.dropWhile isPySpace).reverse
  match cs with
  | '+' :: rest => (pyDigits rest).map (fun n => (n : Int))
  | '-' :: rest => (pyDigits rest).map (fun n => -(n : Int))
  | rest => (pyDigits rest).map (fun n => (n : Int))

/-- Python's `int(s)` on a string. -/
def pyInt? (s : String) : Option Int := pyIntChars? s.data

/-- Python's `s.split('-')`: split on every dash, keeping empty parts
(`"".split('-') == ['']`). -/
def splitDash : List Char → List (List Char)
  | [] => [[]]
  | c :: cs =>
      if c = '-' then [] :: splitDash cs
      else
        match splitDash cs with
        | p :: ps => (c :: p) :: ps
        | [] => [[c]]

/-- Row of table `jogadores`. -/
structure Jogador where
  id : Nat
  nome : String
  goleiro : Bool
deriving DecidableEq, Repr

/-- A Python `datetime.date` value (`date(ano, mes, dia)` validates on
construction; see `mkDate`). -/
structure PyDate where
  year : Int
  month : Int
  day : Int
deriving DecidableEq, Repr

/-- Row of table `partidas`. -/
structure Partida where
  id : Nat
  data : PyDate
deriving DecidableEq, Repr

/-- Row of table `estatisticas`.  The five counters are nullable integer
columns (their SQL default `0` applies only at flush time; `pontos_dia`
guards every read with `or 0`). -/
structure Estatistica where
  partida_id : Nat
  jogador_id : Nat
  gols : Option Int
  assistencias : Option Int
  vitorias : Option Int
  empates : Option Int
  sem_gol : Option Int
deriving DecidableEq, Repr

/-- Python `x or 0` on a nullable integer column: `None ↦ 0`, `0 ↦ 0`,
anything else to itself. -/
def orZero (o : Option Int) : Int := o.getD 0

/-- `Estatistica.pontos_dia`: the scoring rule.  `jogador` is the resolved
relationship (`self.jogador`), which can be `none` when the foreign key does
not resolve; `if self.jogador and self.jogador.goleiro` then the goalkeeper
formula, else the field-player formula. -/
def pontos_dia (jogador : Option Jogador) (e : Estatistica) : Int :=
  if (match jogador with | some j => j.goleiro | none => false) then
    2 * (orZero e.sem_gol + orZero e.vitorias + orZero e.assistencias + orZero e.gols)
  else
    2 * orZero e.gols + 2 * orZero e.assistencias
      + 2 * orZero e.vitorias + 1 * orZero e.empates

/-- First value for a key in the submitted form (`request.form.get key dflt`);
the form is a finite multidict modelled as an association list. -/
def formGet (form : List (String × String)) (key dflt : String) : String :=
  match form.find? (fun p => p.1 == key) with
  | some p => p.2
  | none => dflt

/-- `get_int` from the index POST handler: read field `pref ++ campo` with
default `"0"`, parse with `int`, and on `ValueError` return `0`. -/
def get_int (form : List (String × String)) (pref campo : String) : Int :=
  (pyInt? (formGet form (pref ++ campo) "0")).getD 0

/-- Leap-year test of the proleptic Gregorian calendar used by
`datetime.date`. -/
def isLeap (y : Int) : Bool :=
  y % 4 == 0 && (y % 100 != 0 || y % 400 == 0)

/-- Days in a month, as validated by the `datetime.date` constructor. -/
def daysInMonth (y m : Int) : Int :=
  if m = 2 then (if isLeap y then 29 else 28)
  else if m = 4 ∨ m = 6 ∨ m = 9 ∨ m = 11 then 30
  else 31

/-- `date(y, m, d)`: `none` models the `ValueError` the constructor raises
for out-of-range components (`MINYEAR = 1`, `MAXYEAR = 9999`). -/
def mkDate (y m d : Int) : Option PyDate :=
  if 1 ≤ y ∧ y ≤ 9999 ∧ 1 ≤ m ∧ m ≤ 12 ∧ 1 ≤ d ∧ d ≤ daysInMonth y m then
    some ⟨y, m, d⟩
  else none

/-- `ano, mes, dia = map(int, data_str.split('-'))`: succeeds only when the
split yields exactly three parts and each parses as a Python int. -/
def pyInt3 (s : String) : Option (Int × Int × Int) :=
  match splitDash s.data with
  | [a, b, c] =>
      match pyIntChars? a, pyIntChars? b, pyIntChars? c with
      | some y, some m, some d => some (y, m, d)
      | _, _, _ => none
  | _ => none

/-- The claim's notion of a date string "well-formed as three dash-separated
integers". -/
def wellFormed3 (s : String) : Bool := (pyInt3 s).isSome

/-- The date-resolution prologue of `index`: `request.args.get('data')` is
`dataStr`; a missing or empty (falsy) string falls back to `date.today()`
(passed in as `today`); otherwise split/parse/construct, where `none` models
an uncaught exception. -/
def parseDataParam (dataStr : Option String) (today : PyDate) : Option PyDate :=
  match dataStr with
  | none => some today
  | some s =>
      if s = "" then some today
      else
        match pyInt3 s with
        | some (y, m, d) => mkDate y m d
        | none => none

/-- `Partida.query.filter_by(data=d).first()`. -/
def findPartida (ps : List Partida) (d : PyDate) : Option Partida :=
  ps.find? (fun p => decide (p.data = d))

/-- The match-resolution step of `index`: return the `Partida` for the date,
creating and persisting one when absent.  New rows are appended (autoincrement
primary key); the fresh id is immaterial to every property proved below. -/
def resolvePartida (d : PyDate) (ps : List Partida) : Partida × List Partida :=
  match findPartida ps d with
  | some p => (p, ps)
  | none =>
      let p : Partida := ⟨ps.length + 1, d⟩
      (p, ps ++ [p])

/-- Predicate for the `(partida_id, jogador_id)` pair used by
`Estatistica.query.filter_by(...)`. -/
def isPair (pid jid : Nat) (e : Estatistica) : Bool :=
  decide (e.partida_id = pid ∧ e.jogador_id = jid)

/-- One iteration of the POST loop for a single player: find the first row
for the pair and overwrite its five counters, or append a fresh row carrying
those counters.  In-place update keeps the row's position; `session.add`
appends. -/
def upsertOne (pid jid : Nat) (g a v em s : Int) :
    List Estatistica → List Estatistica
  | [] => [⟨pid, jid, some g, some a, some v, some em, some s⟩]
  | r :: rs =>
      if isPair pid jid r then
        { r with gols := some g, assistencias := some a, vitorias := some v,
                 empates := some em, sem_gol := some s } :: rs
      else r :: upsertOne pid jid g a v em s rs

/-- Counter for player `jid` parsed from the form with prefix `f'j{id}_'`. -/
def counterOf (form : List (String × String)) (jid : Nat) (campo : String) : Int :=
  get_int form ("j" ++ toString jid ++ "_") campo

/-- The body of the POST loop for one roster player: parse the five
counters with the player's prefix and upsert. -/
def postStep (form : List (String × String)) (pid : Nat)
    (acc : List Estatistica) (j : Jogador) : List Estatistica :=
  upsertOne pid j.id
    (counterOf form j.id "gols")
    (counterOf form j.id "assistencias")
    (counterOf form j.id "vitorias")
    (counterOf form j.id "empates")
    (counterOf form j.id "sem_gol") acc

/-- The whole POST branch of `index`: one upsert per roster player, in roster
order, against the resolved match `pid`. -/
def processPost (form : List (String × String)) (pid : Nat)
    (js : List Jogador) (rows : List Estatistica) : List Estatistica :=
  js.foldl (postStep form pid) rows

/-- The persisted state the ranking reads: the `jogadores` table and the
`estatisticas` table, each in primary-key order. -/
structure DB where
  jogadores : List Jogador
  estatisticas : List Estatistica

/-- The `jogador.estatisticas` backref: all statistic rows of one player, in
primary-key order. -/
def estatisticasOf (rows : List Estatistica) (jid : Nat) : List Estatistica :=
  rows.filter (fun e => decide (e.jogador_id = jid))

/-- The `est.jogador` relationship: the player row the foreign key points to
(`none` when it does not resolve). -/
def resolveJogador (js : List Jogador) (jid : Nat) : Option Jogador :=
  js.find? (fun j => decide (j.id = jid))

/-- Accumulator of the ranking loop (`total_gols`, ..., `total_pontos`). -/
structure Totals where
  gols : Int
  assistencias : Int
  vitorias : Int
  empates : Int
  sem_gol : Int
  pontos : Int
deriving DecidableEq, Repr

/-- One step of the per-player accumulation loop in `index`. -/
def addEst (js : List Jogador) (t : Totals) (est : Estatistica) : Totals :=
  { gols := t.gols + orZero est.gols
    assistencias := t.assistencias + orZero est.assistencias
    vitorias := t.vitorias + orZero est.vitorias
    empates := t.empates + orZero est.empates
    sem_gol := t.sem_gol + orZero est.sem_gol
    pontos := t.pontos + pontos_dia (resolveJogador js est.jogador_id) est }

/-- One entry of the `ranking` list (the dict appended per player). -/
structure RankEntry where
  jogador : Jogador
  totals : Totals
deriving DecidableEq, Repr

/-- Build the ranking dict for one player: fold the accumulation loop over
the player's statistic rows starting from all-zero totals. -/
def rankingEntry (db : DB) (j : Jogador) : RankEntry :=
  ⟨j, (estatisticasOf db.estatisticas j.id).foldl (addEst db.jogadores) ⟨0, 0, 0, 0, 0, 0⟩⟩

/-- The name order used by `Jogador.query.order_by(Jogador.nome)`. -/
def byNome (a b : Jogador) : Prop := a.nome ≤ b.nome

instance : DecidableRel byNome := fun a b => inferInstanceAs (Decidable (a.nome ≤ b.nome))

instance : IsTotal Jogador byNome := ⟨fun a b => le_total a.nome b.nome⟩

instance : IsTrans Jogador byNome := ⟨fun _ _ _ h1 h2 => le_trans h1 h2⟩

/-- The roster as the view reads it: all players ordered by name.  SQL
`ORDER BY` is modelled as a stable sort of the table in primary-key order. -/
def sortJogadores (js : List Jogador) : List Jogador :=
  js.insertionSort byNome

/-- `ranking.sort(key=lambda x: x["pontos"], reverse=True)`: descending by
points.  Python's sort is stable; so is `insertionSort`. -/
def byPontosDesc (a b : RankEntry) : Prop := b.totals.pontos ≤ a.totals.pontos

instance : DecidableRel byPontosDesc :=
  fun a b => Int.decLe b.totals.pontos a.totals.pontos

instance : IsTotal RankEntry byPontosDesc :=
  ⟨fun a b => le_total b.totals.pontos a.totals.pontos⟩

instance : IsTrans RankEntry byPontosDesc :=
  ⟨fun _ _ _ h1 h2 => le_trans h2 h1⟩

/-- The full cumulative ranking produced by the GET view: one entry per
roster player (roster in name order), sorted by total points descending. -/
def buildRanking (db : DB) : List RankEntry :=
  ((sortJogadores db.jogadores).map (rankingEntry db)).insertionSort byPontosDesc

/-- Raw form lookup without the default (`request.form.get key` returning
`None` when the field is missing). -/
def formLookup (form : List (String × String)) (key : String) : Option String :=
  (form.find? (fun p => p.1 == key)).map (fun p => p.2)

/-- The statistic row as the POST handler leaves it for one player: the pair
keys plus the five freshly parsed counters. -/
def mkRow (pid jid : Nat) (g a v em s : Int) : Estatistica :=
  ⟨pid, jid, some g, some a, some v, some em, some s⟩

/-- The row the POST handler leaves for roster player `j`: keys
`(pid, j.id)` and the five counters parsed from `j`'s form fields. -/
def expectedRow (form : List (String × String)) (pid : Nat) (j : Jogador) :
    Estatistica :=
  mkRow pid j.id
    (counterOf form j.id "gols")
    (counterOf form j.id "assistencias")
    (counterOf form j.id "vitorias")
    (counterOf form j.id "empates")
    (counterOf form j.id "sem_gol")

/-- All five counters of a row are non-negative (a null counter reads as
`0`). -/
def estatNonneg (e : Estatistica) : Prop :=
  0 ≤ orZero e.gols ∧ 0 ≤ orZero e.assistencias ∧ 0 ≤ orZero e.vitorias
    ∧ 0 ≤ orZero e.empates ∧ 0 ≤ orZero e.sem_gol

instance (e : Estatistica) : Decidable (estatNonneg e) := by
  unfold estatNonneg; infer_instance


/-- Claim C1: for a `Estatistica` row with concrete non-negative counters,
`pontos_dia` returns `2 * (s + w + a + g)` when the resolved player's
goalkeeper flag is set (draws contribute nothing), and
`2*g + 2*a + 2*w + 1*d` otherwise; a null counter is read as `0`, and the
function is total (no error conditions or side effects). -/
theorem pontos_dia_formula (j : Jogador) (pid jid : Nat) (g a w d s : Int)
    (_hg : 0 ≤ g) (_ha : 0 ≤ a) (_hw : 0 ≤ w) (_hd : 0 ≤ d) (_hs : 0 ≤ s) :
    (j.goleiro = true →
      pontos_dia (some j) ⟨pid, jid, some g, some a, some w, some d, some s⟩
        = 2 * (s + w + a + g)) ∧
    (j.goleiro = false →
      pontos_dia (some j) ⟨pid, jid, some g, some a, some w, some d, some s⟩
        = 2 * g + 2 * a + 2 * w + 1 * d) ∧
    (∀ jo : Option Jogador,
      pontos_dia jo ⟨pid, jid, none, none, none, none, none⟩
        = pontos_dia jo ⟨pid, jid, some 0, some 0, some 0, some 0, some 0⟩) := by
  refine ⟨fun hgk => ?_, fun hfield => ?_, fun jo => ?_⟩
  · simp [pontos_dia, orZero, hgk]
  · simp [pontos_dia, orZero, hfield]
  · cases jo with
    | none => rfl
    | some x => cases hx : x.goleiro <;> simp [pontos_dia, orZero, hx]

/-- Witness for `pontos_dia_formula` at a concrete goalkeeper with
`s=3, w=2, a=0, g=0` (the spec's own example: 10 points). -/
theorem pontos_dia_formula_witness :
    (Jogador.goleiro ⟨7, "G", true⟩ = true →
      pontos_dia (some ⟨7, "G", true⟩) ⟨1, 7, some 0, some 0, some 2, some 5, some 3⟩
        = 2 * (3 + 2 + 0 + 0)) ∧
    (Jogador.goleiro ⟨7, "G", true⟩ = false →
      pontos_dia (some ⟨7, "G", true⟩) ⟨1, 7, some 0, some 0, some 2, some 5, some 3⟩
        = 2 * 0 + 2 * 0 + 2 * 2 + 1 * 5) ∧
    (∀ jo : Option Jogador,
      pontos_dia jo ⟨1, 7, none, none, none, none, none⟩
        = pontos_dia jo ⟨1, 7, some 0, some 0, some 0, some 0, some 0⟩) :=
  pontos_dia_formula ⟨7, "G", true⟩ 1 7 0 0 2 5 3
    (by decide) (by decide) (by decide) (by decide) (by decide)

/-- Claim C9: when the player relationship does not resolve (`self.jogador`
is `None`), `pontos_dia` falls into the field-player branch: draws count,
clean sheets are ignored, and nothing fails. -/
theorem pontos_dia_sem_jogador (e : Estatistica) :
    pontos_dia none e
      = 2 * orZero e.gols + 2 * orZero e.assistencias
        + 2 * orZero e.vitorias + 1 * orZero e.empates := rfl

/-- Claim C6: `get_int` never rejects a submission: a missing counter field
falls back to the default `"0"` and yields `0`, and a present field whose
text fails Python integer parsing also yields `0`. -/
theorem get_int_defaults (form : List (String × String)) (pref campo : String) :
    (formLookup form (pref ++ campo) = none → get_int form pref campo = 0) ∧
    (∀ v, formLookup form (pref ++ campo) = some v → pyInt? v = none →
      get_int form pref campo = 0) := by
  constructor
  · intro hnone
    unfold get_int formGet
    unfold formLookup at hnone
    cases hf : form.find? (fun p => p.1 == pref ++ campo) with
    | none => simp [hf]; decide
    | some p => rw [hf] at hnone; simp at hnone
  · intro v hsome hfail
    unfold get_int formGet
    unfold formLookup at hsome
    cases hf : form.find? (fun p => p.1 == pref ++ campo) with
    | none => rw [hf] at hsome; simp at hsome
    | some p =>
        rw [hf] at hsome
        simp at hsome
        simp [hsome, hfail]

/-- Witness for `get_int_defaults`: a present-but-malformed field
(`"abc"`) and a missing field both parse to `0`. -/
theorem get_int_defaults_witness :
    get_int [("j1_gols", "abc")] "j1_" "gols" = 0 ∧ get_int [] "j1_" "gols" = 0 :=
  ⟨(get_int_defaults [("j1_gols", "abc")] "j1_" "gols").2 "abc" (by decide) (by decide),
   (get_int_defaults [] "j1_" "gols").1 (by decide)⟩

/-- Claim C8 fails as stated: `"2020-13-01"` is well-formed as three
dash-separated integers, yet the view still raises (the `date` constructor
rejects month 13), so "raises iff present and not well-formed" is false. -/
theorem parseDataParam_claim_cex :
    wellFormed3 "2020-13-01" = true ∧
    parseDataParam (some "2020-13-01") ⟨2026, 10, 12⟩ = none := by
  constructor
  · decide
  · decide

/-- Claim C8 amended: an absent date parameter raises nothing and uses the
current date; a supplied date string raises iff it is non-empty (an empty
string is falsy in Python and also falls back to today) and either is not
three dash-separated integers or its three integers do not form a valid
calendar date. -/
theorem parseDataParam_error_iff (dataStr : Option String) (today : PyDate) :
    (dataStr = none → parseDataParam dataStr today = some today) ∧
    (∀ s, dataStr = some s →
      (parseDataParam dataStr today = none ↔
        s ≠ "" ∧ (pyInt3 s = none ∨
          ∃ y m d, pyInt3 s = some (y, m, d) ∧ mkDate y m d = none))) := by
  constructor
  · rintro rfl; rfl
  · rintro s rfl
    show (if s = "" then some today
        else match pyInt3 s with
          | some (y, m, d) => mkDate y m d
          | none => none) = none ↔ _
    by_cases hs : s = ""
    · simp [hs]
    · rw [if_neg hs]
      cases h3 : pyInt3 s with
      | none => simp [hs, h3]
      | some t =>
          obtain ⟨y, m, d⟩ := t
          simp only [h3, Option.some.injEq, Prod.mk.injEq]
          constructor
          · intro hmk
            exact ⟨hs, Or.inr ⟨y, m, d, ⟨rfl, rfl, rfl⟩, hmk⟩⟩
          · rintro ⟨-, h | ⟨y', m', d', heq, hmk⟩⟩
            · exact absurd h (by simp)
            · obtain ⟨rfl, rfl, rfl⟩ := heq
              exact hmk

/-- Witness for `parseDataParam_error_iff`: `"2020-02-30"` parses as three
integers but is not a valid date, so the request raises. -/
theorem parseDataParam_error_iff_witness :
    parseDataParam (some "2020-02-30") ⟨2026, 10, 12⟩ = none :=
  ((parseDataParam_error_iff (some "2020-02-30") ⟨2026, 10, 12⟩).2
      "2020-02-30" rfl).mpr
    ⟨by decide, Or.inr ⟨2020, 2, 30, by decide, by decide⟩⟩

/-- Claim C5: match resolution is idempotent.  Assuming the uniqueness
invariant (at most one `Partida` row per date), resolving a date returns an
existing row unchanged, otherwise appends exactly one fresh row; afterwards
exactly one row carries the date, and resolving again returns the same row
and the same table, so no number of repetitions creates a second row. -/
theorem resolvePartida_idempotent (d : PyDate) (ps : List Partida)
    (h : ps.countP (fun p => decide (p.data = d)) ≤ 1) :
    (∀ p, findPartida ps d = some p → resolvePartida d ps = (p, ps)) ∧
    (findPartida ps d = none →
      (resolvePartida d ps).2 = ps ++ [⟨ps.length + 1, d⟩]) ∧
    ((resolvePartida d ps).2.countP (fun p => decide (p.data = d)) = 1) ∧
    (resolvePartida d (resolvePartida d ps).2
      = ((resolvePartida d ps).1, (resolvePartida d ps).2)) := by
  refine ⟨fun p hp => ?_, fun hn => ?_, ?_, ?_⟩
  · unfold resolvePartida
    rw [hp]
  · unfold resolvePartida
    rw [hn]
  · cases hf : findPartida ps d with
    | none =>
        have hzero : ps.countP (fun p => decide (p.data = d)) = 0 := by
          rw [List.countP_eq_zero]
          intro a ha
          unfold findPartida at hf
          rw [List.find?_eq_none] at hf
          exact hf a ha
        have hres : (resolvePartida d ps).2 = ps ++ [⟨ps.length + 1, d⟩] := by
          unfold resolvePartida; rw [hf]
        rw [hres]
        simp [hzero]
    | some p =>
        unfold findPartida at hf
        have hmem : p ∈ ps := List.mem_of_find?_eq_some hf
        have hp := List.find?_some hf
        have hpos : 0 < ps.countP (fun p => decide (p.data = d)) :=
          List.countP_pos_iff.mpr ⟨p, hmem, hp⟩
        have hres : (resolvePartida d ps).2 = ps := by
          unfold resolvePartida findPartida; rw [hf]
        rw [hres]
        omega
  · cases hf : findPartida ps d with
    | some p =>
        have hres : resolvePartida d ps = (p, ps) := by
          unfold resolvePartida; rw [hf]
        rw [hres]
        unfold resolvePartida
        rw [hf]
    | none =>
        have hres : resolvePartida d ps = (⟨ps.length + 1, d⟩, ps ++ [⟨ps.length + 1, d⟩]) := by
          unfold resolvePartida; rw [hf]
        have hfind2 : findPartida (ps ++ [(⟨ps.length + 1, d⟩ : Partida)]) d
            = some ⟨ps.length + 1, d⟩ := by
          unfold findPartida
          rw [List.find?_append]
          unfold findPartida at hf
          rw [hf]
          simp
        rw [hres]
        unfold resolvePartida
        rw [hfind2]

/-- Witness for `resolvePartida_idempotent` on the empty table at the date
2026-10-12. -/
theorem resolvePartida_idempotent_witness :
    (∀ p, findPartida [] ⟨2026, 10, 12⟩ = some p →
      resolvePartida ⟨2026, 10, 12⟩ [] = (p, [])) ∧
    (findPartida [] ⟨2026, 10, 12⟩ = none →
      (resolvePartida ⟨2026, 10, 12⟩ []).2 = [] ++ [⟨0 + 1, ⟨2026, 10, 12⟩⟩]) ∧
    ((resolvePartida ⟨2026, 10, 12⟩ []).2.countP
      (fun p => decide (p.data = ⟨2026, 10, 12⟩)) = 1) ∧
    (resolvePartida ⟨2026, 10, 12⟩ (resolvePartida ⟨2026, 10, 12⟩ []).2
      = ((resolvePartida ⟨2026, 10, 12⟩ []).1, (resolvePartida ⟨2026, 10, 12⟩ []).2)) :=
  resolvePartida_idempotent ⟨2026, 10, 12⟩ [] (by decide)

/-- Claim C7 fails as stated: `int("-3")` parses fine, so one POST on an
empty table reaches a persisted state holding a negative counter. -/
theorem negative_counter_reachable :
    processPost [("j1_gols", "-3")] 1 [⟨1, "A", false⟩] []
      = [⟨1, 1, some (-3), some 0, some 0, some 0, some 0⟩] ∧
    ¬ estatNonneg ⟨1, 1, some (-3), some 0, some 0, some 0, some 0⟩ := by
  constructor
  · decide
  · decide

/-- Auxiliary for the amended C7: `get_int` is non-negative whenever no form
value parses to a negative integer (a missing field defaults to `"0"`, a
malformed field to `0`). -/
theorem get_int_nonneg (form : List (String × String)) (pref campo : String)
    (hform : ∀ kv ∈ form, ∀ n : Int, pyInt? kv.2 = some n → 0 ≤ n) :
    0 ≤ get_int form pref campo := by
  unfold get_int formGet
  cases hf : form.find? (fun p => p.1 == pref ++ campo) with
  | none => decide
  | some p =>
      have hmem : p ∈ form := List.mem_of_find?_eq_some hf
      cases hv : pyInt? p.2 with
      | none => simp [hv]
      | some n =>
          simp only [hv, Option.getD_some]
          exact hform p hmem n hv

/-- Auxiliary for the amended C7: a single upsert with non-negative counters
preserves non-negativity of every row. -/
theorem upsertOne_nonneg (pid jid : Nat) (g a v em s : Int)
    (rows : List Estatistica)
    (hg : 0 ≤ g) (ha : 0 ≤ a) (hv : 0 ≤ v) (hem : 0 ≤ em) (hs : 0 ≤ s)
    (hrows : ∀ e ∈ rows, estatNonneg e) :
    ∀ e ∈ upsertOne pid jid g a v em s rows, estatNonneg e := by
  induction rows with
  | nil =>
      intro e he
      simp only [upsertOne, List.mem_singleton] at he
      subst he
      exact ⟨hg, ha, hv, hem, hs⟩
  | cons r rs ih =>
      intro e he
      simp only [upsertOne] at he
      by_cases hp : isPair pid jid r
      · rw [if_pos hp] at he
        rcases List.mem_cons.mp he with rfl | hmem
        · exact ⟨hg, ha, hv, hem, hs⟩
        · exact hrows e (List.mem_cons_of_mem r hmem)
      · rw [if_neg hp] at he
        rcases List.mem_cons.mp he with rfl | hmem
        · exact hrows e (List.mem_cons_self e rs)
        · exact ih (fun e' he' => hrows e' (List.mem_cons_of_mem r he')) e hmem

/-- Claim C7 amended: every persisted counter is non-negative provided no
submitted form value parses to a negative integer (the handler accepts
negative numeric text as-is, which is what breaks the original claim). -/
theorem processPost_nonneg (form : List (String × String)) (pid : Nat)
    (js : List Jogador) (rows : List Estatistica)
    (hform : ∀ kv ∈ form, ∀ n : Int, pyInt? kv.2 = some n → 0 ≤ n)
    (hrows : ∀ e ∈ rows, estatNonneg e) :
    ∀ e ∈ processPost form pid js rows, estatNonneg e := by
  induction js generalizing rows with
  | nil => simpa [processPost] using hrows
  | cons j js ih =>
      have hstep :
          ∀ e ∈ upsertOne pid j.id
              (counterOf form j.id "gols")
              (counterOf form j.id "assistencias")
              (counterOf form j.id "vitorias")
              (counterOf form j.id "empates")
              (counterOf form j.id "sem_gol") rows, estatNonneg e :=
        upsertOne_nonneg _ _ _ _ _ _ _ _
          (get_int_nonneg form _ _ hform)
          (get_int_nonneg form _ _ hform)
          (get_int_nonneg form _ _ hform)
          (get_int_nonneg form _ _ hform)
          (get_int_nonneg form _ _ hform)
          hrows
      simpa [processPost, postStep] using ih _ hstep

/-- Witness for `processPost_nonneg`: a submission of `"2"` goals on an
empty table leaves only non-negative rows. -/
theorem processPost_nonneg_witness :
    estatNonneg ⟨1, 1, some 2, some 0, some 0, some 0, some 0⟩ := by
  refine processPost_nonneg [("j1_gols", "2")] 1 [⟨1, "A", false⟩] []
    ?_ ?_ ⟨1, 1, some 2, some 0, some 0, some 0, some 0⟩ (by decide)
  · intro kv hkv n hn
    simp only [List.mem_singleton] at hkv
    subst hkv
    have h2 : pyInt? "2" = some 2 := by decide
    rw [h2] at hn
    injection hn with hn'
    omega
  · intro e he
    exact absurd he (List.not_mem_nil e)

/-- The fresh row the upsert writes satisfies its own pair predicate. -/
theorem isPair_mkRow (pid jid : Nat) (g a v em s : Int) :
    isPair pid jid (mkRow pid jid g a v em s) = true := by
  simp [isPair, mkRow]

/-- Effect of one upsert on the rows of its own pair: the first matching row
(or the appended fresh one) now carries exactly the new counters, and any
further duplicate rows of the pair are left untouched. -/
theorem filter_upsertOne_self (pid jid : Nat) (g a v em s : Int)
    (rows : List Estatistica) :
    (upsertOne pid jid g a v em s rows).filter (isPair pid jid)
      = mkRow pid jid g a v em s :: (rows.filter (isPair pid jid)).tail := by
  induction rows with
  | nil =>
      simp only [upsertOne, List.filter_nil, List.tail_nil]
      rw [show ([⟨pid, jid, some g, some a, some v, some em, some s⟩] : List Estatistica)
            = [mkRow pid jid g a v em s] from rfl]
      rw [List.filter_cons_of_pos (isPair_mkRow pid jid g a v em s), List.filter_nil]
  | cons r rs ih =>
      by_cases hp : isPair pid jid r = true
      · obtain ⟨h1, h2⟩ : r.partida_id = pid ∧ r.jogador_id = jid := by
          simpa [isPair] using hp
        have hrow :
            ({ r with
                  gols := some g, assistencias := some a, vitorias := some v,
                  empates := some em, sem_gol := some s } : Estatistica)
              = mkRow pid jid g a v em s := by
          cases r
          simp only [mkRow]
          simp_all
        simp only [upsertOne, if_pos hp, hrow]
        rw [List.filter_cons_of_pos (isPair_mkRow pid jid g a v em s),
            List.filter_cons_of_pos hp, List.tail_cons]
      · simp only [upsertOne, if_neg hp]
        rw [List.filter_cons_of_neg hp, List.filter_cons_of_neg hp]
        exact ih

/-- One upsert leaves the rows of every other pair untouched. -/
theorem filter_upsertOne_other (pid' jid' pid jid : Nat) (g a v em s : Int)
    (rows : List Estatistica) (h : ¬(pid' = pid ∧ jid' = jid)) :
    (upsertOne pid' jid' g a v em s rows).filter (isPair pid jid)
      = rows.filter (isPair pid jid) := by
  induction rows with
  | nil =>
      simp only [upsertOne, List.filter_nil]
      have : isPair pid jid (⟨pid', jid', some g, some a, some v, some em, some s⟩ :
          Estatistica) = false := by
        simp only [isPair, decide_eq_false_iff_not]
        exact h
      rw [List.filter_cons_of_neg (by simp [this]), List.filter_nil]
  | cons r rs ih =>
      by_cases hp : isPair pid' jid' r = true
      · obtain ⟨h1, h2⟩ : r.partida_id = pid' ∧ r.jogador_id = jid' := by
          simpa [isPair] using hp
        have hold : isPair pid jid r = false := by
          simp only [isPair, decide_eq_false_iff_not]
          rintro ⟨hh1, hh2⟩
          exact h ⟨h1.symm.trans hh1, h2.symm.trans hh2⟩
        have hup : isPair pid jid
            ({ r with
                  gols := some g, assistencias := some a, vitorias := some v,
                  empates := some em, sem_gol := some s } : Estatistica) = false := by
          simp only [isPair, decide_eq_false_iff_not]
          rintro ⟨hh1, hh2⟩
          exact h ⟨h1.symm.trans hh1, h2.symm.trans hh2⟩
        simp only [upsertOne, if_pos hp]
        rw [List.filter_cons_of_neg (by simp [hup]), List.filter_cons_of_neg (by simp [hold])]
      · simp only [upsertOne, if_neg hp]
        by_cases hq : isPair pid jid r = true
        · rw [List.filter_cons_of_pos hq, List.filter_cons_of_pos hq, ih]
        · rw [List.filter_cons_of_neg hq, List.filter_cons_of_neg hq]
          exact ih

/-- A run of upserts for players whose ids all differ from `jid` leaves the
rows of the pair `(pid, jid)` untouched. -/
theorem filter_processPost_of_ne (form : List (String × String)) (pid jid : Nat)
    (js : List Jogador) (rows : List Estatistica)
    (h : ∀ j' ∈ js, j'.id ≠ jid) :
    (processPost form pid js rows).filter (isPair pid jid)
      = rows.filter (isPair pid jid) := by
  induction js generalizing rows with
  | nil => rfl
  | cons j' js' ih =>
      have hne : ¬(pid = pid ∧ j'.id = jid) := by
        rintro ⟨-, hj⟩
        exact h j' (List.mem_cons_self j' js') hj
      have hstep : (postStep form pid rows j').filter (isPair pid jid)
          = rows.filter (isPair pid jid) :=
        filter_upsertOne_other pid j'.id pid jid _ _ _ _ _ rows hne
      calc (processPost form pid (j' :: js') rows).filter (isPair pid jid)
          = (processPost form pid js' (postStep form pid rows j')).filter
              (isPair pid jid) := rfl
        _ = (postStep form pid rows j').filter (isPair pid jid) :=
              ih _ (fun x hx => h x (List.mem_cons_of_mem j' hx))
        _ = rows.filter (isPair pid jid) := hstep

/-- After the POST loop runs over a roster containing `j` (with no duplicate
ids later in the roster), the first row of `j`'s pair carries exactly the
counters parsed for `j`. -/
theorem head_filter_processPost (form : List (String × String)) (pid : Nat)
    (js : List Jogador) (rows : List Estatistica) (j : Jogador)
    (hj : j ∈ js) (hnd : (js.map (fun x => x.id)).Nodup) :
    ((processPost form pid js rows).filter (isPair pid j.id)).head?
      = some (expectedRow form pid j) := by
  obtain ⟨l1, l2, rfl⟩ := List.append_of_mem hj
  have hsub : List.Sublist ((j :: l2).map (fun x => x.id))
      ((l1 ++ j :: l2).map (fun x => x.id)) :=
    (List.sublist_append_right l1 (j :: l2)).map _
  have hnd2 : ((j :: l2).map (fun x => x.id)).Nodup := hnd.sublist hsub
  have hl2 : ∀ x ∈ l2, x.id ≠ j.id := by
    intro x hx hxe
    rcases List.nodup_cons.mp hnd2 with ⟨hnotin, -⟩
    have hmm : x.id ∈ l2.map (fun x => x.id) := List.mem_map_of_mem _ hx
    rw [hxe] at hmm
    exact hnotin hmm
  have hdecomp : processPost form pid (l1 ++ j :: l2) rows
      = processPost form pid l2
          (postStep form pid (processPost form pid l1 rows) j) := by
    unfold processPost
    rw [List.foldl_append]
    rfl
  rw [hdecomp, filter_processPost_of_ne form pid j.id l2 _ hl2]
  unfold postStep expectedRow
  rw [filter_upsertOne_self]
  rfl

/-- If for every roster player the first row of their pair already carries
their parsed counters, the POST loop is the identity on the table. -/
theorem processPost_id_of_heads (form : List (String × String)) (pid : Nat)
    (js : List Jogador) (s : List Estatistica)
    (hinv : ∀ j ∈ js,
      ((s.filter (isPair pid j.id)).head? = some (expectedRow form pid j))) :
    processPost form pid js s = s := by
  induction js with
  | nil => rfl
  | cons j js' ih =>
      have hfix : postStep form pid s j = s := by
        have hj := hinv j (List.mem_cons_self j js')
        unfold postStep
        -- the first row of the pair already equals the freshly parsed row
        clear ih hinv
        induction s with
        | nil => simp [expectedRow] at hj
        | cons r rs ihs =>
            by_cases hp : isPair pid j.id r = true
            · rw [List.filter_cons_of_pos hp, List.head?_cons,
                Option.some.injEq] at hj
              simp only [upsertOne, if_pos hp]
              subst hj
              simp [expectedRow, mkRow]
            · rw [List.filter_cons_of_neg hp] at hj
              simp only [upsertOne, if_neg hp]
              rw [ihs hj]
      calc processPost form pid (j :: js') s
          = processPost form pid js' (postStep form pid s j) := rfl
        _ = processPost form pid js' s := by rw [hfix]
        _ = s := ih (fun x hx => hinv x (List.mem_cons_of_mem j hx))

/-- Claim C2: for a POST submission against match `pid` and any roster player
`j` (roster ids distinct, table initially holding at most one row for the
pair, as the upsert itself guarantees), afterwards the table holds exactly
one row for `(pid, j.id)` and that row's five counters are the values parsed
from `j`'s form fields — created if absent, otherwise overwritten wholesale;
and re-running the identical submission leaves the table unchanged, so
repeated identical submissions yield one row, not two. -/
theorem processPost_upsert (form : List (String × String)) (pid : Nat)
    (js : List Jogador) (rows : List Estatistica) (j : Jogador)
    (h1 : (js.map (fun x => x.id)).Nodup)
    (h2 : rows.countP (isPair pid j.id) ≤ 1)
    (h3 : j ∈ js) :
    (processPost form pid js rows).filter (isPair pid j.id)
      = [expectedRow form pid j] ∧
    processPost form pid js (processPost form pid js rows)
      = processPost form pid js rows := by
  constructor
  · obtain ⟨l1, l2, rfl⟩ := List.append_of_mem h3
    rw [List.map_append] at h1
    rcases List.nodup_append.mp h1 with ⟨-, hnd2, hdisj⟩
    rw [List.map_cons, List.nodup_cons] at hnd2
    have hl2 : ∀ x ∈ l2, x.id ≠ j.id := by
      intro x hx hxe
      have hmm : x.id ∈ l2.map (fun x => x.id) := List.mem_map_of_mem _ hx
      rw [hxe] at hmm
      exact hnd2.1 hmm
    have hl1 : ∀ x ∈ l1, x.id ≠ j.id := by
      intro x hx hxe
      have hmm : x.id ∈ l1.map (fun x => x.id) := List.mem_map_of_mem _ hx
      have hnid : x.id ∉ (j :: l2).map (fun x => x.id) := hdisj hmm
      rw [List.map_cons] at hnid
      exact hnid (hxe ▸ List.mem_cons_self j.id _)
    have hdecomp : processPost form pid (l1 ++ j :: l2) rows
        = processPost form pid l2
            (postStep form pid (processPost form pid l1 rows) j) := by
      unfold processPost
      rw [List.foldl_append]
      rfl
    rw [hdecomp, filter_processPost_of_ne form pid j.id l2 _ hl2]
    unfold postStep
    rw [filter_upsertOne_self,
      filter_processPost_of_ne form pid j.id l1 rows hl1]
    have hlen : (rows.filter (isPair pid j.id)).length ≤ 1 := by
      rw [← List.countP_eq_length_filter]
      exact h2
    have htail : (rows.filter (isPair pid j.id)).tail = [] := by
      cases hF : rows.filter (isPair pid j.id) with
      | nil => rfl
      | cons x xs =>
          cases xs with
          | nil => rfl
          | cons y ys => rw [hF] at hlen; simp at hlen
    rw [htail]
    rfl
  · exact processPost_id_of_heads form pid js _
      (fun x hx => head_filter_processPost form pid js rows x hx h1)

/-- Witness for `processPost_upsert`: one player, one submitted goal count,
empty table. -/
theorem processPost_upsert_witness :
    (processPost [("j1_gols", "3")] 1 [⟨1, "A", false⟩] []).filter (isPair 1 1)
      = [expectedRow [("j1_gols", "3")] 1 ⟨1, "A", false⟩] ∧
    processPost [("j1_gols", "3")] 1 [⟨1, "A", false⟩]
        (processPost [("j1_gols", "3")] 1 [⟨1, "A", false⟩] [])
      = processPost [("j1_gols", "3")] 1 [⟨1, "A", false⟩] [] :=
  processPost_upsert [("j1_gols", "3")] 1 [⟨1, "A", false⟩] [] ⟨1, "A", false⟩
    (by decide) (by decide) (by decide)

/-- The per-player accumulation loop computes, in each field, the starting
value plus the sum of that field over the rows (`pontos` summing
`pontos_dia`). -/
theorem foldl_addEst (js : List Jogador) (l : List Estatistica) (t : Totals) :
    l.foldl (addEst js) t
      = ⟨t.gols + (l.map (fun e => orZero e.gols)).sum,
         t.assistencias + (l.map (fun e => orZero e.assistencias)).sum,
         t.vitorias + (l.map (fun e => orZero e.vitorias)).sum,
         t.empates + (l.map (fun e => orZero e.empates)).sum,
         t.sem_gol + (l.map (fun e => orZero e.sem_gol)).sum,
         t.pontos + (l.map
            (fun e => pontos_dia (resolveJogador js e.jogador_id) e)).sum⟩ := by
  induction l generalizing t with
  | nil => cases t; simp
  | cons e l ih =>
      rw [List.foldl_cons, ih]
      simp only [addEst, List.map_cons, List.sum_cons, Totals.mk.injEq]
      refine ⟨by ring, by ring, by ring, by ring, by ring, by ring⟩

/-- Claim C3: for every roster player, the ranking contains that player's
entry, and its five counter totals are the sums of the player's per-record
counters over all of the player's statistic rows while its point total is
the sum of the per-record `pontos_dia` values over the same rows. -/
theorem ranking_totals (db : DB) (j : Jogador) (h : j ∈ db.jogadores) :
    rankingEntry db j ∈ buildRanking db ∧
    (rankingEntry db j).jogador = j ∧
    (rankingEntry db j).totals.gols
      = ((estatisticasOf db.estatisticas j.id).map (fun e => orZero e.gols)).sum ∧
    (rankingEntry db j).totals.assistencias
      = ((estatisticasOf db.estatisticas j.id).map
          (fun e => orZero e.assistencias)).sum ∧
    (rankingEntry db j).totals.vitorias
      = ((estatisticasOf db.estatisticas j.id).map (fun e => orZero e.vitorias)).sum ∧
    (rankingEntry db j).totals.empates
      = ((estatisticasOf db.estatisticas j.id).map (fun e => orZero e.empates)).sum ∧
    (rankingEntry db j).totals.sem_gol
      = ((estatisticasOf db.estatisticas j.id).map (fun e => orZero e.sem_gol)).sum ∧
    (rankingEntry db j).totals.pontos
      = ((estatisticasOf db.estatisticas j.id).map
          (fun e => pontos_dia (resolveJogador db.jogadores e.jogador_id) e)).sum := by
  refine ⟨?_, rfl, ?_, ?_, ?_, ?_, ?_, ?_⟩
  · have h1 : j ∈ sortJogadores db.jogadores := by
      unfold sortJogadores
      rw [List.mem_insertionSort]
      exact h
    have h2 : rankingEntry db j ∈ (sortJogadores db.jogadores).map (rankingEntry db) :=
      List.mem_map_of_mem _ h1
    unfold buildRanking
    rw [List.mem_insertionSort]
    exact h2
  all_goals
    unfold rankingEntry
    rw [foldl_addEst]
    simp

/-- Witness for `ranking_totals`: a one-player, one-row database. -/
theorem ranking_totals_witness :
    rankingEntry ⟨[⟨1, "A", false⟩], [⟨1, 1, some 2, some 1, some 1, some 1, some 0⟩]⟩
        ⟨1, "A", false⟩
      ∈ buildRanking ⟨[⟨1, "A", false⟩], [⟨1, 1, some 2, some 1, some 1, some 1, some 0⟩]⟩ ∧
    (rankingEntry ⟨[⟨1, "A", false⟩], [⟨1, 1, some 2, some 1, some 1, some 1, some 0⟩]⟩
        ⟨1, "A", false⟩).jogador = ⟨1, "A", false⟩ ∧
    (rankingEntry ⟨[⟨1, "A", false⟩], [⟨1, 1, some 2, some 1, some 1, some 1, some 0⟩]⟩
        ⟨1, "A", false⟩).totals.gols
      = ((estatisticasOf [⟨1, 1, some 2, some 1, some 1, some 1, some 0⟩] 1).map
          (fun e => orZero e.gols)).sum ∧
    (rankingEntry ⟨[⟨1, "A", false⟩], [⟨1, 1, some 2, some 1, some 1, some 1, some 0⟩]⟩
        ⟨1, "A", false⟩).totals.assistencias
      = ((estatisticasOf [⟨1, 1, some 2, some 1, some 1, some 1, some 0⟩] 1).map
          (fun e => orZero e.assistencias)).sum ∧
    (rankingEntry ⟨[⟨1, "A", false⟩], [⟨1, 1, some 2, some 1, some 1, some 1, some 0⟩]⟩
        ⟨1, "A", false⟩).totals.vitorias
      = ((estatisticasOf [⟨1, 1, some 2, some 1, some 1, some 1, some 0⟩] 1).map
          (fun e => orZero e.vitorias)).sum ∧
    (rankingEntry ⟨[⟨1, "A", false⟩], [⟨1, 1, some 2, some 1, some 1, some 1, some 0⟩]⟩
        ⟨1, "A", false⟩).totals.empates
      = ((estatisticasOf [⟨1, 1, some 2, some 1, some 1, some 1, some 0⟩] 1).map
          (fun e => orZero e.empates)).sum ∧
    (rankingEntry ⟨[⟨1, "A", false⟩], [⟨1, 1, some 2, some 1, some 1, some 1, some 0⟩]⟩
        ⟨1, "A", false⟩).totals.sem_gol
      = ((estatisticasOf [⟨1, 1, some 2, some 1, some 1, some 1, some 0⟩] 1).map
          (fun e => orZero e.sem_gol)).sum ∧
    (rankingEntry ⟨[⟨1, "A", false⟩], [⟨1, 1, some 2, some 1, some 1, some 1, some 0⟩]⟩
        ⟨1, "A", false⟩).totals.pontos
      = ((estatisticasOf [⟨1, 1, some 2, some 1, some 1, some 1, some 0⟩] 1).map
          (fun e => pontos_dia (resolveJogador [⟨1, "A", false⟩] e.jogador_id) e)).sum :=
  ranking_totals ⟨[⟨1, "A", false⟩], [⟨1, 1, some 2, some 1, some 1, some 1, some 0⟩]⟩
    ⟨1, "A", false⟩ (by decide)

/-- In a duplicate-free list of ids, a present id is counted exactly once. -/
theorem countP_eq_one_of_nodup {l : List Nat} {a : Nat}
    (hnd : l.Nodup) (ha : a ∈ l) :
    l.countP (fun i => decide (i = a)) = 1 := by
  induction l with
  | nil => cases ha
  | cons x xs ih =>
      rcases List.mem_cons.mp ha with rfl | hmem
      · rw [@List.countP_cons_of_pos Nat (fun i => decide (i = a)) a xs (by simp)]
        have hz : xs.countP (fun i => decide (i = a)) = 0 := by
          rw [List.countP_eq_zero]
          intro b hb
          simp only [decide_eq_true_eq]
          rintro rfl
          exact (List.nodup_cons.mp hnd).1 hb
        rw [hz]
      · have hxa : x ≠ a := by
          rintro rfl
          exact (List.nodup_cons.mp hnd).1 hmem
        rw [@List.countP_cons_of_neg Nat (fun i => decide (i = a)) x xs (by simp [hxa])]
        exact ih (List.nodup_cons.mp hnd).2 hmem

/-- Claim C4: the ranking is sorted with point totals non-increasing from
first to last, and (for a roster with distinct player ids) it holds exactly
one entry per roster player and exactly as many entries as players — no
pagination or truncation. -/
theorem ranking_sorted_complete (db : DB) (j : Jogador)
    (h1 : (db.jogadores.map (fun x => x.id)).Nodup)
    (h2 : j ∈ db.jogadores) :
    (buildRanking db).Pairwise byPontosDesc ∧
    (buildRanking db).length = db.jogadores.length ∧
    (buildRanking db).countP (fun e => decide (e.jogador.id = j.id)) = 1 := by
  refine ⟨?_, ?_, ?_⟩
  · exact List.sorted_insertionSort byPontosDesc _
  · calc (buildRanking db).length
        = ((sortJogadores db.jogadores).map (rankingEntry db)).length :=
          (List.perm_insertionSort byPontosDesc _).length_eq
      _ = (sortJogadores db.jogadores).length := List.length_map _ _
      _ = db.jogadores.length := (List.perm_insertionSort byNome _).length_eq
  · have hperm1 : List.Perm (buildRanking db)
        ((sortJogadores db.jogadores).map (rankingEntry db)) :=
      List.perm_insertionSort _ _
    rw [hperm1.countP_eq, List.countP_map]
    have hperm2 : List.Perm (sortJogadores db.jogadores) db.jogadores :=
      List.perm_insertionSort _ _
    rw [hperm2.countP_eq]
    have hcount := countP_eq_one_of_nodup h1 (List.mem_map_of_mem (fun x => x.id) h2)
    rw [List.countP_map] at hcount
    exact hcount

/-- Witness for `ranking_sorted_complete`: two players, one statistic row. -/
theorem ranking_sorted_complete_witness :
    (buildRanking ⟨[⟨1, "A", false⟩, ⟨2, "B", true⟩],
        [⟨1, 1, some 2, some 0, some 0, some 0, some 0⟩]⟩).Pairwise byPontosDesc ∧
    (buildRanking ⟨[⟨1, "A", false⟩, ⟨2, "B", true⟩],
        [⟨1, 1, some 2, some 0, some 0, some 0, some 0⟩]⟩).length
      = ([⟨1, "A", false⟩, ⟨2, "B", true⟩] : List Jogador).length ∧
    (buildRanking ⟨[⟨1, "A", false⟩, ⟨2, "B", true⟩],
        [⟨1, 1, some 2, some 0, some 0, some 0, some 0⟩]⟩).countP
        (fun e => decide (e.jogador.id = Jogador.id ⟨1, "A", false⟩)) = 1 :=
  ranking_sorted_complete
    ⟨[⟨1, "A", false⟩, ⟨2, "B", true⟩], [⟨1, 1, some 2, some 0, some 0, some 0, some 0⟩]⟩
    ⟨1, "A", false⟩ (by decide) (by decide)

/-- Inserting `x` into `l` with `orderedInsert` preserves a pairwise
invariant `Q`, provided `x` is `Q`-above everything it ends up before and
`Q`-below everything that refuses `r x ·` (those are the elements `x` is
placed after). -/
theorem pairwise_orderedInsert_stable {α : Type} (r : α → α → Prop)
    [DecidableRel r] (Q : α → α → Prop) (x : α) (l : List α)
    (h1 : l.Pairwise Q) (h2 : ∀ y ∈ l, ¬ r x y → Q y x)
    (h3 : ∀ y ∈ l, Q x y) :
    (l.orderedInsert r x).Pairwise Q := by
  induction l with
  | nil => simp
  | cons y ys ih =>
      rw [List.orderedInsert]
      by_cases hr : r x y
      · rw [if_pos hr]
        exact List.pairwise_cons.mpr ⟨h3, h1⟩
      · rw [if_neg hr]
        refine List.pairwise_cons.mpr ⟨?_, ?_⟩
        · intro z hz
          rcases (List.mem_orderedInsert r).mp hz with rfl | hzys
          · exact h2 y (List.mem_cons_self y ys) hr
          · exact (List.pairwise_cons.mp h1).1 z hzys
        · exact ih (List.pairwise_cons.mp h1).2
            (fun z hz => h2 z (List.mem_cons_of_mem y hz))
            (fun z hz => h3 z (List.mem_cons_of_mem y hz))

/-- Stability of `insertionSort`: a pairwise invariant of the input list
survives sorting whenever `Q b a` holds anyway for every strictly
out-of-order pair (`¬ r a b`). -/
theorem pairwise_insertionSort_stable {α : Type} (r : α → α → Prop)
    [DecidableRel r] (Q : α → α → Prop) (l : List α)
    (h1 : l.Pairwise Q) (hQ : ∀ a b, ¬ r a b → Q b a) :
    (l.insertionSort r).Pairwise Q := by
  induction l with
  | nil => simp
  | cons x xs ih =>
      rw [List.insertionSort]
      refine pairwise_orderedInsert_stable r Q x _
        (ih (List.pairwise_cons.mp h1).2) ?_ ?_
      · intro y hy hr
        exact hQ x y hr
      · intro y hy
        exact (List.pairwise_cons.mp h1).1 y ((List.mem_insertionSort r).mp hy)

/-- Claim C10: ties are resolved alphabetically.  The ranking is built from
the roster in name order and sorted with a stable sort keyed only on points,
so any two entries with equal point totals appear in (weakly) ascending
order of player name. -/
theorem ranking_ties_by_nome (db : DB) :
    (buildRanking db).Pairwise
      (fun a b => a.totals.pontos = b.totals.pontos →
        a.jogador.nome ≤ b.jogador.nome) := by
  unfold buildRanking
  refine pairwise_insertionSort_stable byPontosDesc _ _ ?_ ?_
  · rw [List.pairwise_map]
    have hs : (sortJogadores db.jogadores).Pairwise byNome :=
      List.sorted_insertionSort byNome _
    exact hs.imp (fun hab => fun _ => hab)
  · intro a b hr heq
    exact absurd (le_of_eq heq) hr
